import Mathlib

/-!
Shallow embedding of `src/Transformer/rerank_star.py` (CREBMRetro).

Conventions used throughout:
* Python floats (probabilities, costs, scores) are embedded as `ℚ`: the claims
  under study concern the additive/order structure of the scores, not IEEE
  rounding.
* The neural collaborators (`predict_model`, `value_model`, `reward_model`),
  RDKit canonicalization (`Chem.MolFromSmiles`, `Chem.MolToSmiles`,
  `Chem.MolToInchiKey`) and the stock table are external to the repository and
  are modelled as oracle fields of environment structures (`BeamEnv`, `Env`),
  exactly at the call interfaces used by `rerank_star.py`.
* Python `sorted` is a stable sort; it is embedded as `List.insertionSort`,
  which is also stable, with the corresponding comparison.
* Python `set` values whose iteration order is irrelevant to the observable
  result are embedded as first-occurrence `dedup` lists or `Finset`s.
* The unbounded `while True:` search loop is embedded with an explicit fuel
  argument (`searchLoop`); every claim is stated for arbitrary fuel.
* `deepcopy`-based copy-on-fork in the source corresponds to ordinary value
  passing in the pure embedding.
-/

/-- Lexicographic order on character lists, mirroring Python's string
comparison by code points (used by `sorted` on strings). -/
def lexLe : List Char → List Char → Bool
  | [], _ => true
  | _ :: _, [] => false
  | a :: as, b :: bs => if a < b then true else if b < a then false else lexLe as bs

/-- Python `a <= b` for strings. -/
def strLeB (a b : String) : Bool := lexLe a.data b.data

/-- Python `sorted(list_of_strings)`. -/
def sortStrings (l : List String) : List String :=
  List.insertionSort (fun a b => strLeB a b = true) l

/-- External collaborators of `get_beam` (lines 129-205 of the source):
vocabulary data from `preprocess`, the step-predictor scores, and RDKit
molecule parsing used for fragment validation.
`nlp product res j` models `-log10(get_output_probs(product, res)[j])`, the
negative log-probability that the transformer assigns to symbol `j` after the
partial reactant string `res`.  `parse r` models
`Chem.MolFromSmiles(r)` followed by `Chem.MolToSmiles`: `none` when the
fragment is unparsable, otherwise `some` canonical form. -/
structure BeamEnv where
  vocabSize : Nat
  maxLength : Nat
  ixToChar : Nat → Char
  nlp : String → String → Nat → ℚ
  parse : String → Option String

/-- Packing of (beam index, symbol index) into one integer, line 153:
`result[i*vocab_size+j, 1] = i * 100 + j`. -/
def packIx (i j : Nat) : Nat := i * 100 + j

/-- Decoding of the symbol index, line 164: `ranked_result[i, 1].item() % 100`. -/
def unpackSymbolIx (v : Nat) : Nat := v % 100

/-- Decoding of the beam index, line 165: `int(ranked_result[i, 1]) // 100`. -/
def unpackBeamIx (v : Nat) : Nat := v / 100

/-- The candidate matrix built at a non-initial step (lines 147-153): one row
per live line `i` and vocabulary symbol `j`, holding the accumulated score
`-log10(prob[j]) + scores[i]` and the packed code `i * 100 + j`. -/
def beamStepRows (env : BeamEnv) (product : String) (lines : List String)
    (scores : List ℚ) : List (ℚ × Nat) :=
  (List.range lines.length).flatMap (fun i =>
    (List.range env.vocabSize).map (fun j =>
      (env.nlp product (lines.getD i "") j + scores.getD i 0, packIx i j)))

/-- The candidate rows of the initial step (lines 141-145): a single empty
line, with the code column holding the plain symbol index. -/
def beamFirstRows (env : BeamEnv) (product : String) : List (ℚ × Nat) :=
  (List.range env.vocabSize).map (fun i => (env.nlp product "" i, i))

/-- Python `sorted`/`argsort` of candidate rows by score (line 155). -/
def sortRows (l : List (ℚ × Nat)) : List (ℚ × Nat) :=
  List.insertionSort (fun a b => a.1 ≤ b.1) l

/-- Mutable state of the selection loop over `range(object_size)`
(lines 157-174). -/
structure SelAcc where
  final_beams : List (String × ℚ)
  new_beams : List String
  new_scores : List ℚ
  object_size : Nat

/-- One iteration of the selection loop (lines 163-174): decode the `i`-th
ranked row; an end token moves the finished string to `final_beams` (unless it
is the bare end token) and shrinks the sought beam width, any other symbol
extends the decoded parent line.  `getD` totalizes the row and line indexing;
Python would raise `IndexError` only when `object_size` exceeds the number of
rows, i.e. when `beam_size > vocab_size` at the first step, a configuration
outside the claims under study. -/
def selectStep (env : BeamEnv) (lines : List String) (ranked : List (ℚ × Nat))
    (acc : SelAcc) (i : Nat) : SelAcc :=
  let row := ranked.getD i (0, 0)
  let symbol := env.ixToChar (unpackSymbolIx row.2)
  let beam_index := unpackBeamIx row.2
  if symbol = '$' then
    let added := (lines.getD beam_index "").push symbol
    { acc with
      final_beams :=
        if added ≠ "$" then acc.final_beams ++ [(added, row.1)] else acc.final_beams,
      object_size := acc.object_size - 1 }
  else
    { acc with
      new_beams := acc.new_beams ++ [(lines.getD beam_index "").push symbol],
      new_scores := acc.new_scores ++ [row.1] }

/-- The generation loop of `get_beam` (lines 139-180), with the step counter
of `range(args.max_length)` as structural fuel.  `first` distinguishes the
`step == 0` row construction. -/
def beamLoop (env : BeamEnv) (product : String) :
    Nat → Bool → List String → List ℚ → List (String × ℚ) → Nat → List (String × ℚ)
  | 0, _, _, _, final_beams, _ => final_beams
  | steps + 1, first, lines, scores, final_beams, object_size =>
    let rows := if first then beamFirstRows env product
                else beamStepRows env product lines scores
    let ranked := sortRows rows
    if lines.isEmpty then final_beams
    else
      let acc := (List.range object_size).foldl (selectStep env lines ranked)
        ⟨final_beams, [], [], object_size⟩
      if acc.new_beams.isEmpty then acc.final_beams
      else beamLoop env product steps false acc.new_beams acc.new_scores
        acc.final_beams acc.object_size

/-- Python `r.replace("$", "")` applied to each fragment (line 195). -/
def stripDollar (r : String) : String := r.replace "$" ""

/-- Python `sorted(final_beams, key=lambda x: x[1])` (line 185). -/
def sortFinalBeams (l : List (String × ℚ)) : List (String × ℚ) :=
  List.insertionSort (fun a b => a.2 ≤ b.2) l

/-- The validation/collection loop of `get_beam` (lines 186-205): walk the
ranked finished strings while `aim_size` answers are still wanted; split each
string on `"."` into its set of fragments (first-occurrence `dedup` stands for
the Python `set`), discard the string when any fragment fails to parse, collect
the sorted set of canonical fragments otherwise (when non-empty). -/
def collectAnswers (env : BeamEnv) : List (String × ℚ) → Nat → List (List String × ℚ)
  | _, 0 => []
  | [], _ + 1 => []
  | fb :: rest, aim_size + 1 =>
    let reactants := (fb.1.splitOn ".").dedup
    let parsed := reactants.map (fun r => env.parse (stripDollar r))
    let num_valid_reactant := (parsed.filter Option.isSome).length
    let sms := (parsed.filterMap id).dedup
    if num_valid_reactant ≠ reactants.length then collectAnswers env rest (aim_size + 1)
    else if sms.length ≠ 0 then
      (sortStrings sms, fb.2) :: collectAnswers env rest aim_size
    else collectAnswers env rest (aim_size + 1)

/-- The single-step beam decoder `get_beam(product, beam_size)`
(lines 129-205): run the generation loop from `beam_size` empty lines, divide
each finished score by the length of its string (line 183), rank by the
normalized score, and validate/collect up to `beam_size` reactant sets. -/
def get_beam (env : BeamEnv) (product : String) (beam_size : Nat) :
    List (List String × ℚ) :=
  let final_beams := beamLoop env product env.maxLength true
    (List.replicate beam_size "") (List.replicate beam_size 0) [] beam_size
  let normalized := final_beams.map (fun fb => (fb.1, fb.2 / (fb.1.length : ℚ)))
  collectAnswers env (sortFinalBeams normalized) beam_size

/-- External collaborators and run configuration of the multi-step search
(`get_route_result`, lines 305-396).  `valueFn` models `value_fn`;
`getBeam m` models `get_beam(m, args.beam_size)`; `inchiKey m` models
`Chem.MolToInchiKey(Chem.MolFromSmiles(m))[:14]`; `stockKeys k` models
`k in stock_inchikeys`; `canoSmiles m` models the second component of
`cano_smiles(m)`; `rerankScore p o` models the reward-model log-likelihood
`get_rerank_scores` assigns to the pair; `beamSize` and `alpha` model
`args.beam_size` and `args.alpha`. -/
structure Env where
  valueFn : String → ℚ
  getBeam : String → List (List String × ℚ)
  inchiKey : String → String
  stockKeys : String → Bool
  canoSmiles : String → String
  rerankScore : String → String → ℚ
  beamSize : Nat
  alpha : ℚ

/-- One entry of a node's `routes_info` list: a still-open branch, holding the
molecule chain from the target to the molecule to expand (last element) and
its depth. -/
structure RouteInfo where
  route : List String
  depth : Nat
deriving DecidableEq

/-- A search node of the frontier `queue` (lines 310-314). -/
structure Node where
  score : ℚ
  routes_info : List RouteInfo
  starting_materials : List String
deriving DecidableEq

/-- A completed route appended to `answer_set` (lines 335-338). -/
structure Answer where
  score : ℚ
  starting_materials : List String
deriving DecidableEq

/-- Python `check_reactant_is_material` (lines 294-295). -/
def check_reactant_is_material (env : Env) (reactant : String) : Bool :=
  env.stockKeys (env.inchiKey reactant)

/-- Python `check_reactants_are_material` (lines 298-302). -/
def check_reactants_are_material (env : Env) (reactants : List String) : Bool :=
  reactants.all (check_reactant_is_material env)

/-- One iteration of the reactant loop of the non-terminal case
(lines 341-346): a purchasable reactant is appended to the starting materials,
a non-purchasable one adds its value estimate to `estimation_cost` and
prepends a deepened `PendingExpansion` to the pending list. -/
def reactantStep (env : Env) (first_route : List String) (depth : Nat)
    (acc : ℚ × List String × List RouteInfo) (reactant : String) :
    ℚ × List String × List RouteInfo :=
  if check_reactant_is_material env reactant then
    (acc.1, acc.2.1 ++ [reactant], acc.2.2)
  else
    (acc.1 + env.valueFn reactant, acc.2.1,
      ⟨first_route ++ [reactant], depth + 1⟩ :: acc.2.2)

/-- Processing of one `expansion_solution` of the beam (lines 328-351), after
the head pending entry has been popped (`iter_routes0` is the remaining list):
either a completed route (`Sum.inl`) when all reactants are purchasable and
nothing is pending, or a new node (`Sum.inr`).  `getLastD` totalizes
`first_route[-1]`; every reachable pending entry has a non-empty `route`
(the root path is `[target]` and children extend it). -/
def expandSolution (env : Env) (score : ℚ) (iter_routes0 : List RouteInfo)
    (starting_materials : List String) (first_route : List String) (depth : Nat)
    (solution : List String × ℚ) : Answer ⊕ Node :=
  let expansion_mol := first_route.getLastD ""
  let expansion_reactants := sortStrings solution.1
  let reaction_cost := solution.2
  if check_reactants_are_material env expansion_reactants && iter_routes0.isEmpty then
    Sum.inl ⟨score + reaction_cost - env.valueFn expansion_mol,
      starting_materials ++ expansion_reactants⟩
  else
    let folded := expansion_reactants.foldl (reactantStep env first_route depth)
      (0, starting_materials, iter_routes0)
    Sum.inr ⟨score + reaction_cost + folded.1 - env.valueFn expansion_mol,
      folded.2.2, folded.2.1⟩

/-- Expansion of one queue node against an explicit list of beam solutions
(lines 319-351): the completed routes it appends to `answer_set` and the new
nodes it appends to `nxt_queue`, in order.  A depth-exceeded head contributes
nothing.  The `[]` branch totalizes `routes_info[0]` (which would raise
`IndexError` in Python); that state is unreachable — the root's pending list
is non-empty and every queued child keeps a non-empty pending list, since the
non-terminal branch only leaves `iter_routes` empty when every reactant is
purchasable, which is the terminal branch. -/
def expandNodeOn (env : Env) (item : Node) (beam : List (List String × ℚ))
    (max_depth : Nat) : List Answer × List Node :=
  match item.routes_info with
  | [] => ([], [])
  | first :: rest =>
    if max_depth < first.depth then ([], [])
    else
      (beam.filterMap (fun sol =>
         (expandSolution env item.score rest item.starting_materials
           first.route first.depth sol).getLeft?),
       beam.filterMap (fun sol =>
         (expandSolution env item.score rest item.starting_materials
           first.route first.depth sol).getRight?))

/-- The molecule the head pending entry expands, `first_route[-1]` (line 327). -/
def expansionMolOf (item : Node) : String :=
  (item.routes_info.headD ⟨[], 0⟩).route.getLastD ""

/-- Expansion of one queue node (lines 319-351), invoking the single-step
decoder on the head molecule. -/
def expandNode (env : Env) (max_depth : Nat) (item : Node) :
    List Answer × List Node :=
  expandNodeOn env item (env.getBeam (expansionMolOf item)) max_depth

/-- Python `sorted(nxt_queue, key=lambda x: x["score"])` (line 352). -/
def sortNodes (l : List Node) : List Node :=
  List.insertionSort (fun a b => a.score ≤ b.score) l

/-- One round of the `while True:` loop (lines 318-352): expand every node of
the queue, collecting completed routes and the candidate pool, then keep the
`beam_size` lowest-scoring pool nodes as the next queue. -/
def searchRound (env : Env) (max_depth : Nat) (queue : List Node) :
    List Answer × List Node :=
  (queue.flatMap (fun item => (expandNode env max_depth item).1),
   (sortNodes (queue.flatMap (fun item => (expandNode env max_depth item).2))).take
     env.beamSize)

/-- The full search loop (lines 315-352), with explicit fuel for the unbounded
`while True:`; terminates when the queue empties. -/
def searchLoop (env : Env) (max_depth : Nat) : Nat → List Node → List Answer
  | 0, _ => []
  | fuel + 1, queue =>
    if queue.isEmpty then []
    else
      (searchRound env max_depth queue).1 ++
        searchLoop env max_depth fuel (searchRound env max_depth queue).2

/-- The root node (lines 310-314). -/
def rootNode (env : Env) (product : String) : Node :=
  ⟨env.valueFn product, [⟨[product], 0⟩], []⟩

/-- A task of the evaluation dataset: target product, ground-truth material
lists, and depth budget. -/
structure RetroTask where
  product : String
  targets : List (List String)
  depth : Nat

/-- The unbounded `answer_set` accumulated by the search for a task
(lines 308-352). -/
def answer_set_of (env : Env) (task : RetroTask) (fuel : Nat) : List Answer :=
  searchLoop env task.depth fuel [rootNode env task.product]

/-- Python `sorted(answer_set, key=lambda x: x["score"])` (line 354). -/
def sortAnswers (l : List Answer) : List Answer :=
  List.insertionSort (fun a b => a.score ≤ b.score) l

/-- An entry of `final_answer_set` before reranking (lines 371-376), paired
with the rerank query string pushed to `rerank_output_list`. -/
structure FinalEntry where
  score : ℚ
  answer_keys : List String
  rerank_output : String
deriving DecidableEq

/-- The deduplication key `'.'.join(sorted(answer_keys))` (lines 369-370). -/
def dedup_key (keys : List String) : String :=
  String.intercalate "." (sortStrings keys)

/-- The deduplication walk (lines 355-376) over the score-sorted answer set,
carrying the `record_answers` set of keys already seen. -/
def dedupLoop (env : Env) : List Answer → List String → List FinalEntry
  | [], _ => []
  | item :: rest, record_answers =>
    let answer_keys := item.starting_materials.map env.inchiKey
    if dedup_key answer_keys ∈ record_answers then dedupLoop env rest record_answers
    else
      ⟨item.score, answer_keys,
        String.intercalate "."
          (sortStrings (item.starting_materials.map env.canoSmiles))⟩ ::
        dedupLoop env rest (dedup_key answer_keys :: record_answers)

/-- The deduplicated `final_answer_set` of a task (lines 354-376). -/
def final_answer_set_of (env : Env) (task : RetroTask) (fuel : Nat) : List FinalEntry :=
  dedupLoop env (sortAnswers (answer_set_of env task fuel)) []

/-- A fully scored candidate after reranking (lines 378-382). -/
structure RankedCandidate where
  score : ℚ
  answer_keys : List String
  rerank_score : ℚ
  total_score : ℚ
deriving DecidableEq

/-- Attachment of rerank scores (lines 378-381): for each surviving entry,
`rerank_score = -score_` and `total_score = -alpha * score_ + score`. -/
def rankCandidates (env : Env) (product : String) (finals : List FinalEntry) :
    List RankedCandidate :=
  finals.map (fun e =>
    ⟨e.score, e.answer_keys, -(env.rerankScore product e.rerank_output),
      -(env.alpha * env.rerankScore product e.rerank_output) + e.score⟩)

/-- Python `sorted(final_answer_set, key=lambda x: x["total_score"])`
(line 382). -/
def sortRanked (l : List RankedCandidate) : List RankedCandidate :=
  List.insertionSort (fun a b => a.total_score ≤ b.total_score) l

/-- The final ranked candidate list of a task (lines 354-382): deduplicate,
rerank, sort by total score and truncate to the beam size. -/
def final_candidates (env : Env) (task : RetroTask) (fuel : Nat) : List RankedCandidate :=
  (sortRanked (rankCandidates env task.product (final_answer_set_of env task fuel))).take
    env.beamSize

/-- The ground-truth identity-key sets of a task (lines 385-389). -/
def ground_truth_keys_list (env : Env) (task : RetroTask) : List (Finset String) :=
  task.targets.map (fun targets => (targets.map env.inchiKey).toFinset)

/-- The inner comparison of the evaluation loop (lines 392-393): does the
candidate's identity-key set equal one of the ground-truth sets. -/
def matches_ground_truth (gts : List (Finset String)) (answer : RankedCandidate) : Bool :=
  gts.any (fun g => decide (answer.answer_keys.toFinset = g))

/-- The evaluation loop (lines 390-394): the 0-indexed rank of the first
matching candidate, `none` when no candidate matches. -/
def calcRank (gts : List (Finset String)) :
    List RankedCandidate → Nat → Option Nat
  | [], _ => none
  | answer :: rest, rank =>
    if matches_ground_truth gts answer then some rank
    else calcRank gts rest (rank + 1)

/-- Python `get_route_result(task)` (lines 305-396): the returned pair
`(max_depth, rank)`. -/
def get_route_result (env : Env) (task : RetroTask) (fuel : Nat) : Nat × Option Nat :=
  (task.depth, calcRank (ground_truth_keys_list env task)
    (final_candidates env task fuel) 0)

/-- Well-formedness of a node: every pending path records one molecule per
depth level, `len(route) = depth + 1`.  The root satisfies it and every
expansion preserves it. -/
def NodeWF (item : Node) : Prop :=
  ∀ p ∈ item.routes_info, p.route.length = p.depth + 1

/-- A concrete oracle environment: every molecule is purchasable, every
molecule's identity key is `"K"`, value estimates and rerank scores are zero,
and the decoder proposes the two reactant sets `{A}` and `{B, C}`. -/
def envC1 : Env :=
  ⟨fun _ => 0, fun _ => [(["A"], 0), (["B", "C"], 0)], fun _ => "K",
    fun _ => true, fun s => s, fun _ _ => 0, 5, 0⟩

/-- A concrete task for `envC1`: target `"T"` with no ground-truth sets and
depth budget 2. -/
def taskC1 : RetroTask := ⟨"T", [], 2⟩

/-- A concrete oracle environment whose decoder returns the single terminal
candidate with an empty reactant list and step cost 0, and whose stock
contains every molecule. -/
def envC2 : Env :=
  ⟨fun _ => 0, fun _ => [([], 0)], fun s => s, fun _ => true, fun s => s,
    fun _ _ => 0, 2, 0⟩

/-- A concrete decoder environment for witnessing beam-level claims:
vocabulary of 3 symbols (symbol 0 is the end token `$`). -/
def beamEnvW : BeamEnv :=
  ⟨3, 5, fun i => if i = 0 then '$' else 'a', fun _ _ _ => 0,
    fun s => if s = "" then none else some s⟩

/-- A concrete one-pending node with target `"T"` at depth 0. -/
def nodeW : Node := ⟨0, [⟨["T"], 0⟩], []⟩

/-- A concrete two-pending node: head `"T"` at depth 0, one further open
branch `"U"`. -/
def nodeW2 : Node := ⟨0, [⟨["T"], 0⟩, ⟨["U"], 0⟩], []⟩

/-- A concrete node whose head exceeds any small depth budget. -/
def nodeDeep : Node := ⟨0, [⟨["T", "U", "V"], 2⟩], []⟩

theorem mem_sortStrings {m : String} {l : List String} :
    m ∈ sortStrings l ↔ m ∈ l :=
  (List.perm_insertionSort _ l).mem_iff

theorem toFinset_sortStrings (l : List String) :
    (sortStrings l).toFinset = l.toFinset :=
  List.toFinset_eq_of_perm _ _ (List.perm_insertionSort _ l)

theorem all_sortStrings (p : String → Bool) (l : List String) :
    (sortStrings l).all p = l.all p := by
  cases hp : l.all p with
  | true =>
    exact List.all_eq_true.mpr
      (fun x hx => List.all_eq_true.mp hp x (mem_sortStrings.mp hx))
  | false =>
    refine Bool.eq_false_iff.mpr (fun hall => ?_)
    have h2 : l.all p = true :=
      List.all_eq_true.mpr
        (fun x hx => List.all_eq_true.mp hall x (mem_sortStrings.mpr hx))
    simp [hp] at h2

theorem foldl_reactantStep (env : Env) (fr : List String) (d : Nat)
    (rs : List String) :
    ∀ (est : ℚ) (sms : List String) (routes : List RouteInfo),
    rs.foldl (reactantStep env fr d) (est, sms, routes) =
      (est + ((rs.filter (fun r => !check_reactant_is_material env r)).map
          env.valueFn).sum,
       sms ++ rs.filter (fun r => check_reactant_is_material env r),
       ((rs.filter (fun r => !check_reactant_is_material env r)).map
           (fun r => RouteInfo.mk (fr ++ [r]) (d + 1))).reverse ++ routes) := by
  induction rs with
  | nil => intro est sms routes; simp
  | cons r rs ih =>
    intro est sms routes
    cases h : check_reactant_is_material env r with
    | true =>
      simp only [List.foldl_cons, reactantStep, h, if_true, ih,
        List.filter_cons, Bool.not_true, Bool.false_eq_true]
      simp
    | false =>
      simp only [List.foldl_cons, reactantStep, h, Bool.false_eq_true,
        if_false, ih, List.filter_cons, Bool.not_false]
      simp [add_assoc]

theorem expansionMolOf_cons {item : Node} {first : RouteInfo} {rest : List RouteInfo}
    (h : item.routes_info = first :: rest) :
    expansionMolOf item = first.route.getLastD "" := by
  unfold expansionMolOf
  rw [h]
  rfl

theorem expandNodeOn_of_head (env : Env) (item : Node) (beam : List (List String × ℚ))
    (max_depth : Nat) (first : RouteInfo) (rest : List RouteInfo)
    (h : item.routes_info = first :: rest) (hd : first.depth ≤ max_depth) :
    expandNodeOn env item beam max_depth =
      (beam.filterMap (fun sol =>
         (expandSolution env item.score rest item.starting_materials
           first.route first.depth sol).getLeft?),
       beam.filterMap (fun sol =>
         (expandSolution env item.score rest item.starting_materials
           first.route first.depth sol).getRight?)) := by
  have hd' : ¬ max_depth < first.depth := not_lt.mpr hd
  simp only [expandNodeOn, h, hd', if_false]

theorem expandSolution_inr_shape {env : Env} {score : ℚ} {rest0 : List RouteInfo}
    {sm : List String} {fr : List String} {d : Nat} {sol : List String × ℚ}
    {n : Node}
    (h : (expandSolution env score rest0 sm fr d sol).getRight? = some n) :
    n.score = score + sol.2 +
        (((sortStrings sol.1).filter
            (fun r => !check_reactant_is_material env r)).map env.valueFn).sum -
        env.valueFn (fr.getLastD "") ∧
    n.routes_info =
      (((sortStrings sol.1).filter (fun r => !check_reactant_is_material env r)).map
          (fun r => RouteInfo.mk (fr ++ [r]) (d + 1))).reverse ++ rest0 ∧
    n.starting_materials =
      sm ++ (sortStrings sol.1).filter (fun r => check_reactant_is_material env r) := by
  unfold expandSolution at h
  by_cases hc : (check_reactants_are_material env (sortStrings sol.1) &&
      rest0.isEmpty) = true
  · simp [hc] at h
  · rw [if_neg hc] at h
    simp only [foldl_reactantStep, Sum.getRight?, Option.some.injEq] at h
    subst h
    refine ⟨?_, ?_, ?_⟩ <;> simp [zero_add]

theorem expandSolution_inl_shape {env : Env} {score : ℚ} {rest0 : List RouteInfo}
    {sm : List String} {fr : List String} {d : Nat} {sol : List String × ℚ}
    {a : Answer}
    (h : (expandSolution env score rest0 sm fr d sol).getLeft? = some a) :
    a = ⟨score + sol.2 - env.valueFn (fr.getLastD ""), sm ++ sortStrings sol.1⟩ := by
  unfold expandSolution at h
  by_cases hc : (check_reactants_are_material env (sortStrings sol.1) &&
      rest0.isEmpty) = true
  · rw [if_pos hc] at h
    simpa [Sum.getLeft?] using h.symm
  · rw [if_neg hc] at h
    simp [Sum.getLeft?] at h

/-- C5: expanding a single-pending node with an all-purchasable candidate
emits the completed route with score `node.score + step_cost − value(head)`
and starting materials `node.starting_materials ∪ reactants` into the answer
list of that expansion. -/
theorem claim5_terminal_emission (env : Env) (max_depth : Nat) (item : Node)
    (first : RouteInfo) (reactants : List String) (cost : ℚ)
    (hroutes : item.routes_info = [first])
    (hdepth : first.depth ≤ max_depth)
    (hbeam : (reactants, cost) ∈ env.getBeam (first.route.getLastD ""))
    (hmat : check_reactants_are_material env reactants = true) :
    (⟨item.score + cost - env.valueFn (first.route.getLastD ""),
        item.starting_materials ++ sortStrings reactants⟩ : Answer) ∈
      (expandNode env max_depth item).1 ∧
    (item.starting_materials ++ sortStrings reactants).toFinset =
      item.starting_materials.toFinset ∪ reactants.toFinset := by
  constructor
  · rw [expandNode, expansionMolOf_cons hroutes,
      expandNodeOn_of_head env item _ max_depth first [] hroutes hdepth]
    refine List.mem_filterMap.mpr ⟨(reactants, cost), hbeam, ?_⟩
    have hc : (check_reactants_are_material env (sortStrings reactants) &&
        ([] : List RouteInfo).isEmpty) = true := by
      unfold check_reactants_are_material at hmat ⊢
      rw [all_sortStrings]
      simp [hmat]
    unfold expandSolution
    rw [if_pos hc]
    rfl
  · simp [List.toFinset_append, toFinset_sortStrings]

/-- C6: a non-terminal expansion builds the child node by partitioning the
(sorted) reactants: purchasable ones extend the starting materials,
non-purchasable ones are prepended (most recent first) to the remaining
pending list with extended path and incremented depth, and the child's score
is `node.score + step_cost + Σ value(non-purchasable) − value(head)`. -/
theorem claim6_nonterminal_child (env : Env) (max_depth : Nat) (item : Node)
    (first : RouteInfo) (rest : List RouteInfo)
    (reactants : List String) (cost : ℚ)
    (hroutes : item.routes_info = first :: rest)
    (hdepth : first.depth ≤ max_depth)
    (hbeam : (reactants, cost) ∈ env.getBeam (first.route.getLastD ""))
    (hnt : ¬(check_reactants_are_material env reactants = true ∧ rest = [])) :
    (⟨item.score + cost +
        (((sortStrings reactants).filter
            (fun r => !check_reactant_is_material env r)).map env.valueFn).sum -
        env.valueFn (first.route.getLastD ""),
      (((sortStrings reactants).filter
          (fun r => !check_reactant_is_material env r)).map
          (fun r => RouteInfo.mk (first.route ++ [r]) (first.depth + 1))).reverse ++
        rest,
      item.starting_materials ++
        (sortStrings reactants).filter
          (fun r => check_reactant_is_material env r)⟩ : Node) ∈
      (expandNode env max_depth item).2 := by
  rw [expandNode, expansionMolOf_cons hroutes,
    expandNodeOn_of_head env item _ max_depth first rest hroutes hdepth]
  refine List.mem_filterMap.mpr ⟨(reactants, cost), hbeam, ?_⟩
  have hall : check_reactants_are_material env (sortStrings reactants) =
      check_reactants_are_material env reactants := all_sortStrings _ _
  have hc : (check_reactants_are_material env (sortStrings reactants) &&
      rest.isEmpty) = false := by
    cases hcr : check_reactants_are_material env reactants with
    | false => simp [hall, hcr]
    | true =>
      have hrest : rest ≠ [] := fun hr => hnt ⟨hcr, hr⟩
      simp [hall, hcr, List.isEmpty_iff, hrest]
  unfold expandSolution
  rw [if_neg (by simp [hc])]
  simp only [foldl_reactantStep, Sum.getRight?, Option.some.injEq]
  simp [zero_add]

/-- C9: an expansion is per-candidate compositional — splitting the beam list
splits the emitted answers and children accordingly, so processing one
candidate never disturbs a sibling's contribution — and every child is built
from the parent's own (unchanged) pending tail and starting-materials list,
extended by fresh entries. -/
theorem claim9_no_mutation (env : Env) (max_depth : Nat) (item : Node)
    (b₁ b₂ : List (List String × ℚ)) :
    (expandNodeOn env item (b₁ ++ b₂) max_depth).1 =
        (expandNodeOn env item b₁ max_depth).1 ++
          (expandNodeOn env item b₂ max_depth).1 ∧
    (expandNodeOn env item (b₁ ++ b₂) max_depth).2 =
        (expandNodeOn env item b₁ max_depth).2 ++
          (expandNodeOn env item b₂ max_depth).2 ∧
    ∀ n ∈ (expandNodeOn env item (b₁ ++ b₂) max_depth).2,
      ∃ pend mats, n.routes_info = pend ++ item.routes_info.tail ∧
        n.starting_materials = item.starting_materials ++ mats := by
  cases hr : item.routes_info with
  | nil =>
    refine ⟨?_, ?_, ?_⟩ <;> simp [expandNodeOn, hr]
  | cons first rest =>
    by_cases hd : max_depth < first.depth
    · refine ⟨?_, ?_, ?_⟩ <;> simp [expandNodeOn, hr, hd]
    · have hd' : first.depth ≤ max_depth := not_lt.mp hd
      rw [expandNodeOn_of_head env item _ max_depth first rest hr hd',
        expandNodeOn_of_head env item _ max_depth first rest hr hd',
        expandNodeOn_of_head env item _ max_depth first rest hr hd']
      refine ⟨List.filterMap_append _ _ _, List.filterMap_append _ _ _, ?_⟩
      intro n hn
      obtain ⟨sol, _, hsol⟩ := List.mem_filterMap.mp hn
      obtain ⟨_, hpend, hmats⟩ := expandSolution_inr_shape hsol
      refine ⟨(((sortStrings sol.1).filter
          (fun r => !check_reactant_is_material env r)).map
          (fun r => RouteInfo.mk (first.route ++ [r]) (first.depth + 1))).reverse,
        (sortStrings sol.1).filter (fun r => check_reactant_is_material env r),
        ?_, hmats⟩
      exact hpend

theorem searchLoop_nil (env : Env) (max_depth : Nat) :
    ∀ fuel, searchLoop env max_depth fuel [] = [] := by
  intro fuel
  cases fuel <;> simp [searchLoop]

theorem expandNode_nil_routes {env : Env} {max_depth : Nat} {item : Node}
    (hr : item.routes_info = []) :
    expandNode env max_depth item = ([], []) := by
  simp [expandNode, expandNodeOn, hr]

theorem expandNode_depth_exceeded {env : Env} {max_depth : Nat} {item : Node}
    {first : RouteInfo} {rest : List RouteInfo}
    (hr : item.routes_info = first :: rest) (hd : max_depth < first.depth) :
    expandNode env max_depth item = ([], []) := by
  simp [expandNode, expandNodeOn, hr, hd]

theorem expandNode_wf {env : Env} {max_depth : Nat} {item : Node}
    (hWF : NodeWF item) :
    ∀ n ∈ (expandNode env max_depth item).2, NodeWF n := by
  intro n hn
  cases hr : item.routes_info with
  | nil =>
    rw [expandNode_nil_routes hr] at hn
    simp at hn
  | cons first rest =>
    by_cases hd : max_depth < first.depth
    · rw [expandNode_depth_exceeded hr hd] at hn
      simp at hn
    · rw [expandNode, expansionMolOf_cons hr,
        expandNodeOn_of_head env item _ max_depth first rest hr (not_lt.mp hd)] at hn
      obtain ⟨sol, _, hsol⟩ := List.mem_filterMap.mp hn
      obtain ⟨_, hpend, _⟩ := expandSolution_inr_shape hsol
      intro p hp
      rw [hpend] at hp
      rcases List.mem_append.mp hp with hnew | hold
      · obtain ⟨r, _, hr'⟩ := List.mem_map.mp (List.mem_reverse.mp hnew)
        have hfirst : first.route.length = first.depth + 1 :=
          hWF first (hr ▸ List.mem_cons_self _ _)
        rw [← hr']
        simp [hfirst]
      · exact hWF p (hr ▸ List.mem_cons_of_mem _ hold)

/-- C3: a depth-exceeded head makes the node contribute nothing — the decoder
is not even consulted (the expansion result is independent of the `getBeam`
oracle), no children are queued — the root is well-formed, expansion and
beam pruning preserve well-formedness, and any expansion that emits a
completed route does so from a head of depth ≤ `max_depth` whose path length
is ≤ `max_depth + 1`. -/
theorem claim3_depth_invariant (env : Env) (max_depth : Nat) :
    (∀ (item : Node) (first : RouteInfo) (rest : List RouteInfo),
      item.routes_info = first :: rest → max_depth < first.depth →
      ∀ g, expandNode { env with getBeam := g } max_depth item = ([], [])) ∧
    (∀ t, NodeWF (rootNode env t)) ∧
    (∀ item : Node, NodeWF item →
      ∀ n ∈ (expandNode env max_depth item).2, NodeWF n) ∧
    (∀ queue : List Node, (∀ n ∈ queue, NodeWF n) →
      ∀ n ∈ (searchRound env max_depth queue).2, NodeWF n) ∧
    (∀ item : Node, NodeWF item → (expandNode env max_depth item).1 ≠ [] →
      ∃ first rest, item.routes_info = first :: rest ∧
        first.depth ≤ max_depth ∧ first.route.length ≤ max_depth + 1) := by
  refine ⟨?_, ?_, ?_, ?_, ?_⟩
  · intro item first rest hr hd g
    exact expandNode_depth_exceeded hr hd
  · intro t
    intro p hp
    simp [rootNode] at hp
    simp [hp]
  · intro item hWF
    exact expandNode_wf hWF
  · intro queue hq n hn
    have hn' : n ∈ sortNodes
        (queue.flatMap (fun item => (expandNode env max_depth item).2)) :=
      List.mem_of_mem_take hn
    have hn'' : n ∈ queue.flatMap (fun item => (expandNode env max_depth item).2) :=
      (List.perm_insertionSort _ _).mem_iff.mp hn'
    obtain ⟨item, hitem, hchild⟩ := List.mem_flatMap.mp hn''
    exact expandNode_wf (hq item hitem) n hchild
  · intro item hWF hne
    cases hr : item.routes_info with
    | nil => exact absurd (by rw [expandNode_nil_routes hr]) hne
    | cons first rest =>
      by_cases hd : max_depth < first.depth
      · exact absurd (by rw [expandNode_depth_exceeded hr hd]) hne
      · refine ⟨first, rest, rfl, not_lt.mp hd, ?_⟩
        have := hWF first (hr ▸ List.mem_cons_self _ _)
        omega

/-- C7: after each round the next queue is exactly the `min(beam_size, pool)`
lowest-scoring nodes of the round's candidate pool, in ascending score
order. -/
theorem claim7_beam_pruning (env : Env) (max_depth : Nat) (queue : List Node) :
    (searchRound env max_depth queue).2.length =
      min env.beamSize
        (queue.flatMap (fun item => (expandNode env max_depth item).2)).length ∧
    (searchRound env max_depth queue).2.Pairwise (fun a b => a.score ≤ b.score) ∧
    ∃ dropped,
      ((searchRound env max_depth queue).2 ++ dropped).Perm
          (queue.flatMap (fun item => (expandNode env max_depth item).2)) ∧
      ∀ a ∈ (searchRound env max_depth queue).2, ∀ b ∈ dropped, a.score ≤ b.score := by
  letI : IsTotal Node (fun a b => a.score ≤ b.score) :=
    ⟨fun a b => le_total a.score b.score⟩
  letI : IsTrans Node (fun a b => a.score ≤ b.score) :=
    ⟨fun _ _ _ hab hbc => le_trans hab hbc⟩
  have h2 : (searchRound env max_depth queue).2 =
      (sortNodes (queue.flatMap (fun item => (expandNode env max_depth item).2))).take
        env.beamSize := rfl
  have hperm : (sortNodes
      (queue.flatMap (fun item => (expandNode env max_depth item).2))).Perm
      (queue.flatMap (fun item => (expandNode env max_depth item).2)) :=
    List.perm_insertionSort _ _
  have hsorted : (sortNodes
      (queue.flatMap (fun item => (expandNode env max_depth item).2))).Pairwise
      (fun a b => a.score ≤ b.score) :=
    List.sorted_insertionSort (fun a b : Node => a.score ≤ b.score) _
  refine ⟨?_, ?_, ?_⟩
  · rw [h2, List.length_take, hperm.length_eq]
  · rw [h2]
    exact List.Pairwise.sublist (List.take_sublist _ _) hsorted
  · refine ⟨(sortNodes
      (queue.flatMap (fun item => (expandNode env max_depth item).2))).drop
        env.beamSize, ?_, ?_⟩
    · rw [h2, List.take_append_drop]
      exact hperm
    · intro a ha b hb
      rw [h2] at ha
      have hsplit := List.pairwise_append.mp
        (show List.Pairwise (fun a b : Node => a.score ≤ b.score)
            ((sortNodes (queue.flatMap
                (fun item => (expandNode env max_depth item).2))).take env.beamSize ++
              (sortNodes (queue.flatMap
                (fun item => (expandNode env max_depth item).2))).drop env.beamSize) by
          rw [List.take_append_drop]; exact hsorted)
      exact hsplit.2.2 a ha b hb

theorem dedupLoop_key_not_mem (env : Env) :
    ∀ (l : List Answer) (record : List String) (e : FinalEntry),
      e ∈ dedupLoop env l record → dedup_key e.answer_keys ∉ record := by
  intro l
  induction l with
  | nil => intro record e he; simp [dedupLoop] at he
  | cons item rest ih =>
    intro record e he
    rw [dedupLoop] at he
    by_cases hk : dedup_key (item.starting_materials.map env.inchiKey) ∈ record
    · rw [if_pos hk] at he
      exact ih record e he
    · rw [if_neg hk] at he
      rcases List.mem_cons.mp he with rfl | hmem
      · simpa using hk
      · have hrec := ih _ e hmem
        exact fun hr => hrec (List.mem_cons_of_mem _ hr)

theorem dedupLoop_pairwise (env : Env) :
    ∀ (l : List Answer) (record : List String),
      (dedupLoop env l record).Pairwise
        (fun a b => dedup_key a.answer_keys ≠ dedup_key b.answer_keys) := by
  intro l
  induction l with
  | nil => intro record; simp [dedupLoop]
  | cons item rest ih =>
    intro record
    rw [dedupLoop]
    by_cases hk : dedup_key (item.starting_materials.map env.inchiKey) ∈ record
    · rw [if_pos hk]
      exact ih record
    · rw [if_neg hk]
      refine List.Pairwise.cons ?_ (ih _)
      intro b hb heq
      have hrec := dedupLoop_key_not_mem env rest _ b hb
      exact hrec (by simp only at heq; rw [← heq]; exact List.mem_cons_self _ _)

/-- C1 (amended): the final ranked candidate list never contains two entries
whose sorted identity-key lists (the `'.'`-joined deduplication keys, which
count multiplicity) coincide.  Equality of identity-key sets alone is not
prevented; see the counterexample. -/
theorem claim1_dedup_pairwise (env : Env) (task : RetroTask) (fuel : Nat) :
    (final_candidates env task fuel).Pairwise
      (fun a b => dedup_key a.answer_keys ≠ dedup_key b.answer_keys) := by
  unfold final_candidates
  apply List.Pairwise.sublist (List.take_sublist _ _)
  have hperm : (sortRanked (rankCandidates env task.product
      (final_answer_set_of env task fuel))).Perm
      (rankCandidates env task.product (final_answer_set_of env task fuel)) :=
    List.perm_insertionSort _ _
  rw [hperm.pairwise_iff (fun h => h.symm)]
  unfold rankCandidates
  rw [List.pairwise_map]
  exact dedupLoop_pairwise env _ _

theorem calcRank_none_iff (gts : List (Finset String)) :
    ∀ (l : List RankedCandidate) (k : Nat),
      calcRank gts l k = none ↔
        ∀ a ∈ l, matches_ground_truth gts a = false := by
  intro l
  induction l with
  | nil => intro k; simp [calcRank]
  | cons hd rest ih =>
    intro k
    rw [calcRank]
    by_cases hm : matches_ground_truth gts hd = true
    · simp [hm]
    · simp only [hm, Bool.false_eq_true, if_false]
      rw [ih (k + 1)]
      constructor
      · intro hall a ha
        rcases List.mem_cons.mp ha with rfl | hmem
        · exact Bool.eq_false_iff.mpr hm
        · exact hall a hmem
      · intro hall a ha
        exact hall a (List.mem_cons_of_mem _ ha)

theorem calcRank_some_spec (gts : List (Finset String)) :
    ∀ (l : List RankedCandidate) (k r : Nat),
      calcRank gts l k = some r →
        k ≤ r ∧
        (∃ a, l[r - k]? = some a ∧ matches_ground_truth gts a = true) ∧
        ∀ i a', i < r - k → l[i]? = some a' →
          matches_ground_truth gts a' = false := by
  intro l
  induction l with
  | nil => intro k r h; simp [calcRank] at h
  | cons hd rest ih =>
    intro k r h
    rw [calcRank] at h
    by_cases hm : matches_ground_truth gts hd = true
    · rw [if_pos hm] at h
      injection h with hk
      subst hk
      refine ⟨le_refl _, ⟨hd, by simp, hm⟩, ?_⟩
      intro i a' hi
      rw [Nat.sub_self] at hi
      exact absurd hi (Nat.not_lt_zero i)
    · rw [if_neg hm] at h
      obtain ⟨hle, ⟨a, ha, hma⟩, hearlier⟩ := ih (k + 1) r h
      refine ⟨by omega, ⟨a, ?_, hma⟩, ?_⟩
      · have hsub : r - k = (r - (k + 1)) + 1 := by omega
        rw [hsub]
        simpa using ha
      · intro i a' hi hget
        cases i with
        | zero =>
          have : a' = hd := by simpa using hget.symm
          rw [this]
          exact Bool.eq_false_iff.mpr hm
        | succ i =>
          refine hearlier i a' (by omega) ?_
          simpa using hget

/-- C8: `get_route_result` returns `(max_depth, rank)` where `rank` is the
0-indexed position of the earliest final candidate whose identity-key set
equals one of the ground-truth key sets, and `(max_depth, none)` exactly when
no candidate matches — in particular when the search produced no completed
route at all. -/
theorem claim8_evaluation (env : Env) (task : RetroTask) (fuel : Nat) :
    (get_route_result env task fuel).1 = task.depth ∧
    (∀ r, (get_route_result env task fuel).2 = some r →
      (∃ a, (final_candidates env task fuel)[r]? = some a ∧
        matches_ground_truth (ground_truth_keys_list env task) a = true) ∧
      ∀ i a', i < r → (final_candidates env task fuel)[i]? = some a' →
        matches_ground_truth (ground_truth_keys_list env task) a' = false) ∧
    ((get_route_result env task fuel).2 = none ↔
      ∀ a ∈ final_candidates env task fuel,
        matches_ground_truth (ground_truth_keys_list env task) a = false) ∧
    (answer_set_of env task fuel = [] →
      (get_route_result env task fuel).2 = none) := by
  refine ⟨rfl, ?_, ?_, ?_⟩
  · intro r h
    obtain ⟨-, ⟨a, ha, hma⟩, hearlier⟩ :=
      calcRank_some_spec (ground_truth_keys_list env task)
        (final_candidates env task fuel) 0 r h
    rw [Nat.sub_zero] at ha
    refine ⟨⟨a, ha, hma⟩, ?_⟩
    intro i a' hi hget
    exact hearlier i a' (by omega) hget
  · exact calcRank_none_iff _ _ 0
  · intro hempty
    have hfc : final_candidates env task fuel = [] := by
      unfold final_candidates final_answer_set_of
      rw [hempty]
      simp [sortAnswers, dedupLoop, rankCandidates, sortRanked]
    show calcRank _ _ 0 = none
    rw [hfc]
    rfl

/-- C2 (amended): when the stock contains the target and the decoder returns
the single terminal candidate `([], 0)`, the search emits exactly one
completed route in round 1 — but its `starting_materials` list is empty
(score 0): the purchasable target itself is never recorded as a starting
material. -/
theorem claim2_amended (env : Env) (max_depth fuel : Nat) (target : String)
    (hstock : check_reactant_is_material env target = true)
    (hbeam : env.getBeam target = [([], 0)])
    (hfuel : 1 ≤ fuel) :
    searchLoop env max_depth fuel [rootNode env target] =
      [⟨0, []⟩] := by
  obtain ⟨n, rfl⟩ : ∃ n, fuel = n + 1 := ⟨fuel - 1, by omega⟩
  have hexp : expandNode env max_depth (rootNode env target) = ([⟨0, []⟩], []) := by
    rw [expandNode]
    have hmol : expansionMolOf (rootNode env target) = target := rfl
    rw [hmol, hbeam,
      expandNodeOn_of_head env _ _ max_depth ⟨[target], 0⟩ [] rfl (Nat.zero_le _)]
    simp only [List.filterMap_cons, List.filterMap_nil]
    unfold expandSolution
    rw [if_pos (by simp [check_reactants_are_material, sortStrings])]
    simp [rootNode, sortStrings, Sum.getLeft?, Sum.getRight?]
  rw [searchLoop]
  rw [if_neg (by simp)]
  simp [searchRound, hexp, sortNodes, searchLoop_nil]

theorem collectAnswers_length_le (env : BeamEnv) :
    ∀ (l : List (String × ℚ)) (aim : Nat),
      (collectAnswers env l aim).length ≤ aim := by
  intro l
  induction l with
  | nil => intro aim; cases aim <;> simp [collectAnswers]
  | cons fb rest ih =>
    intro aim
    cases aim with
    | zero => simp [collectAnswers]
    | succ aim =>
      rw [collectAnswers]
      by_cases h1 : (((fb.1.splitOn ".").dedup.map
          (fun r => env.parse (stripDollar r))).filter Option.isSome).length ≠
          (fb.1.splitOn ".").dedup.length
      · rw [if_pos h1]
        exact ih (aim + 1)
      · rw [if_neg h1]
        by_cases h2 : (((fb.1.splitOn ".").dedup.map
            (fun r => env.parse (stripDollar r))).filterMap id).dedup.length ≠ 0
        · rw [if_pos h2]
          simpa using Nat.succ_le_succ (ih aim)
        · rw [if_neg h2]
          exact ih (aim + 1)

theorem collectAnswers_valid (env : BeamEnv) :
    ∀ (l : List (String × ℚ)) (aim : Nat),
      ∀ c ∈ collectAnswers env l aim,
        c.1 ≠ [] ∧ ∀ m ∈ c.1, ∃ r, env.parse r = some m := by
  intro l
  induction l with
  | nil => intro aim c hc; cases aim <;> simp [collectAnswers] at hc
  | cons fb rest ih =>
    intro aim c hc
    cases aim with
    | zero => simp [collectAnswers] at hc
    | succ aim =>
      rw [collectAnswers] at hc
      by_cases h1 : (((fb.1.splitOn ".").dedup.map
          (fun r => env.parse (stripDollar r))).filter Option.isSome).length ≠
          (fb.1.splitOn ".").dedup.length
      · rw [if_pos h1] at hc
        exact ih (aim + 1) c hc
      · rw [if_neg h1] at hc
        by_cases h2 : (((fb.1.splitOn ".").dedup.map
            (fun r => env.parse (stripDollar r))).filterMap id).dedup.length ≠ 0
        · rw [if_pos h2] at hc
          rcases List.mem_cons.mp hc with rfl | hmem
          · constructor
            · intro hnil
              refine h2 ?_
              have hlen := (List.perm_insertionSort
                (fun a b : String => strLeB a b = true)
                (((fb.1.splitOn ".").dedup.map
                  (fun r => env.parse (stripDollar r))).filterMap id).dedup).length_eq
              have hnil' : sortStrings ((((fb.1.splitOn ".").dedup.map
                  (fun r => env.parse (stripDollar r))).filterMap id).dedup) = [] := hnil
              rw [sortStrings] at hnil'
              rw [← hlen, hnil']
              rfl
            · intro m hm
              have hmem' : m ∈ (((fb.1.splitOn ".").dedup.map
                  (fun r => env.parse (stripDollar r))).filterMap id).dedup :=
                mem_sortStrings.mp hm
              have hmem'' := List.mem_dedup.mp hmem'
              obtain ⟨o, _, ho⟩ := List.mem_filterMap.mp hmem''
              obtain ⟨r, _, hr⟩ := List.mem_map.mp (by assumption)
              exact ⟨stripDollar r, by rw [hr]; exact ho⟩
          · exact ih aim c hmem
        · rw [if_neg h2] at hc
          exact ih (aim + 1) c hc

/-- C4: for every product and beam width, the single-step decoder returns at
most `beam_size` candidates, each with a non-empty reactant set all of whose
members arose from a successful parse by the canonicalizer (a finished string
with an unparsable fragment, or with no valid fragment, is dropped whole). -/
theorem claim4_beam_output (env : BeamEnv) (product : String) (beam_size : Nat)
    (hB : 1 ≤ beam_size) :
    (get_beam env product beam_size).length ≤ beam_size ∧
    ∀ c ∈ get_beam env product beam_size,
      c.1 ≠ [] ∧ ∀ m ∈ c.1, ∃ r, env.parse r = some m := by
  constructor
  · exact collectAnswers_length_le env _ _
  · exact collectAnswers_valid env _ _

theorem flatMap_range'_map_getD {α : Type} (v : Nat) (f : Nat → Nat → α) (d : α) :
    ∀ (n s i j : Nat), i < n → j < v →
      ((List.range' s n).flatMap (fun k => (List.range v).map (f k))).getD
          (i * v + j) d = f (s + i) j := by
  intro n
  induction n with
  | zero => intro s i j hi _; exact absurd hi (Nat.not_lt_zero i)
  | succ n ih =>
    intro s i j hi hj
    rw [List.range'_succ, List.flatMap_cons]
    cases i with
    | zero =>
      rw [List.getD_eq_getElem?_getD,
        List.getElem?_append_left (by simpa using by omega : 0 * v + j <
          ((List.range v).map (f s)).length)]
      rw [← List.getD_eq_getElem?_getD, List.getD_eq_getElem?_getD]
      have hz : 0 * v + j = j := by omega
      rw [hz]
      simp [List.getElem?_range hj]
    | succ i =>
      have hlen : ((List.range v).map (f s)).length = v := by simp
      rw [List.getD_eq_getElem?_getD,
        List.getElem?_append_right (by rw [hlen]; nlinarith)]
      rw [hlen]
      have hidx : (i + 1) * v + j - v = i * v + j := by
        have : (i + 1) * v = i * v + v := by ring
        omega
      rw [hidx, ← List.getD_eq_getElem?_getD]
      have := ih (s + 1) i j (by omega) hj
      rw [this]
      congr 1
      omega

theorem beamStepRows_getD (env : BeamEnv) (product : String)
    (lines : List String) (scores : List ℚ) (i j : Nat) (d : ℚ × Nat)
    (hi : i < lines.length) (hj : j < env.vocabSize) :
    (beamStepRows env product lines scores).getD (i * env.vocabSize + j) d =
      (env.nlp product (lines.getD i "") j + scores.getD i 0, packIx i j) := by
  unfold beamStepRows
  rw [List.range_eq_range']
  have := flatMap_range'_map_getD env.vocabSize
    (fun k j' => (env.nlp product (lines.getD k "") j' + scores.getD k 0,
      packIx k j')) d lines.length 0 i j hi hj
  simpa using this

/-- C10: the packing `i * 100 + j` of (beam index, symbol index), decoded as
`% 100` / `// 100`, round-trips for every beam index `i` and every symbol
index `j < vocab_size` exactly when `vocab_size ≤ 100`; under that
precondition, the candidate row at position `i * vocab_size + j` carries the
score of line `i` with symbol `j`, and its decoded (beam, symbol) pair points
back at that same line and symbol, so the string built from it extends the
line it was scored from. -/
theorem claim10_packing (env : BeamEnv) (product : String) :
    ((∀ i j, j < env.vocabSize →
        unpackBeamIx (packIx i j) = i ∧ unpackSymbolIx (packIx i j) = j) ↔
      env.vocabSize ≤ 100) ∧
    (env.vocabSize ≤ 100 →
      ∀ (lines : List String) (scores : List ℚ) (i j : Nat),
        i < lines.length → j < env.vocabSize →
        (beamStepRows env product lines scores).getD
            (i * env.vocabSize + j) (0, 0) =
          (env.nlp product (lines.getD i "") j + scores.getD i 0, packIx i j) ∧
        lines.getD (unpackBeamIx (packIx i j)) "" = lines.getD i "" ∧
        env.ixToChar (unpackSymbolIx (packIx i j)) = env.ixToChar j) := by
  constructor
  · constructor
    · intro h
      by_contra hgt
      push_neg at hgt
      have h100 := (h 0 100 (by omega)).1
      unfold packIx unpackBeamIx at h100
      omega
    · intro hv i j hj
      unfold packIx unpackBeamIx unpackSymbolIx
      omega
  · intro hv lines scores i j hi hj
    have hdec : unpackBeamIx (packIx i j) = i ∧ unpackSymbolIx (packIx i j) = j := by
      unfold packIx unpackBeamIx unpackSymbolIx
      omega
    exact ⟨beamStepRows_getD env product lines scores i j (0, 0) hi hj,
      by rw [hdec.1], by rw [hdec.2]⟩

theorem claim2_counterexample :
    searchLoop envC2 2 1 [rootNode envC2 "T"] = [⟨0, []⟩] ∧
    (⟨0, []⟩ : Answer).starting_materials.toFinset ≠ ({"T"} : Finset String) := by
  have hexp : expandNode envC2 2 (rootNode envC2 "T") = ([⟨0, []⟩], []) := by
    rw [expandNode]
    show expandNodeOn envC2 (rootNode envC2 "T") [([], 0)] 2 =
      ([⟨0, []⟩], [])
    rw [expandNodeOn_of_head envC2 _ _ 2 ⟨["T"], 0⟩ [] rfl (Nat.zero_le _)]
    simp only [List.filterMap_cons, List.filterMap_nil]
    unfold expandSolution
    rw [if_pos (by simp [check_reactants_are_material, sortStrings])]
    simp [rootNode, sortStrings, Sum.getLeft?, Sum.getRight?, envC2]
  refine ⟨?_, by decide⟩
  rw [searchLoop]
  rw [if_neg (by simp)]
  simp [searchRound, hexp, sortNodes, searchLoop_nil]

theorem claim1_counterexample :
    final_candidates envC1 taskC1 1 =
      [⟨0, ["K"], 0, 0⟩, ⟨0, ["K", "K"], 0, 0⟩] ∧
    (⟨0, ["K"], 0, 0⟩ : RankedCandidate).answer_keys.toFinset =
      (⟨0, ["K", "K"], 0, 0⟩ : RankedCandidate).answer_keys.toFinset := by
  have hexp : expandNode envC1 2 (rootNode envC1 "T") =
      ([⟨0, ["A"]⟩, ⟨0, ["B", "C"]⟩], []) := by
    rw [expandNode]
    show expandNodeOn envC1 (rootNode envC1 "T") [(["A"], 0), (["B", "C"], 0)] 2 =
      ([⟨0, ["A"]⟩, ⟨0, ["B", "C"]⟩], [])
    rw [expandNodeOn_of_head envC1 _ _ 2 ⟨["T"], 0⟩ [] rfl (Nat.zero_le _)]
    simp +decide [expandSolution, check_reactants_are_material,
      check_reactant_is_material, sortStrings, Sum.getLeft?, Sum.getRight?,
      rootNode, envC1, strLeB, lexLe]
  have hans : searchLoop envC1 2 1 [rootNode envC1 "T"] =
      [⟨0, ["A"]⟩, ⟨0, ["B", "C"]⟩] := by
    rw [searchLoop]
    rw [if_neg (by simp)]
    simp [searchRound, hexp, sortNodes, searchLoop_nil]
  refine ⟨?_, by decide⟩
  unfold final_candidates final_answer_set_of answer_set_of
  have htask : taskC1.depth = 2 ∧ taskC1.product = "T" := ⟨rfl, rfl⟩
  rw [htask.1, htask.2, hans]
  simp +decide [sortAnswers, dedupLoop, dedup_key, sortStrings, strLeB, lexLe,
    rankCandidates, sortRanked, envC1]

theorem claim1_witness :
    (final_candidates envC1 taskC1 1).Pairwise
      (fun a b => dedup_key a.answer_keys ≠ dedup_key b.answer_keys) :=
  claim1_dedup_pairwise envC1 taskC1 1

theorem claim2_witness :
    check_reactant_is_material envC2 "T" = true ∧
    envC2.getBeam "T" = [([], 0)] ∧
    1 ≤ 1 ∧
    searchLoop envC2 2 1 [rootNode envC2 "T"] = [⟨0, []⟩] :=
  ⟨rfl, rfl, le_refl 1, claim2_amended envC2 2 1 "T" rfl rfl (le_refl 1)⟩

theorem claim3_witness :
    expandNode { envC1 with getBeam := fun _ => [] } 1 nodeDeep = ([], []) ∧
    NodeWF (rootNode envC1 "T") ∧
    ∀ n ∈ (expandNode envC1 1 nodeW).2, NodeWF n :=
  ⟨(claim3_depth_invariant envC1 1).1 nodeDeep ⟨["T", "U", "V"], 2⟩ [] rfl
      (by decide) (fun _ => []),
   (claim3_depth_invariant envC1 1).2.1 "T",
   (claim3_depth_invariant envC1 1).2.2.1 nodeW
      (by intro p hp; simp [nodeW] at hp; simp [hp])⟩

theorem claim4_witness :
    1 ≤ 2 ∧ (get_beam beamEnvW "P" 2).length ≤ 2 :=
  ⟨by decide, (claim4_beam_output beamEnvW "P" 2 (by decide)).1⟩

theorem claim5_witness :
    nodeW.routes_info = [⟨["T"], 0⟩] ∧
    check_reactants_are_material envC1 ["A"] = true ∧
    (⟨nodeW.score + 0 - envC1.valueFn ((⟨["T"], 0⟩ : RouteInfo).route.getLastD ""),
        nodeW.starting_materials ++ sortStrings ["A"]⟩ : Answer) ∈
      (expandNode envC1 2 nodeW).1 :=
  ⟨rfl, by decide,
    (claim5_terminal_emission envC1 2 nodeW ⟨["T"], 0⟩ ["A"] 0 rfl (Nat.zero_le _)
      (by simp [envC1]) (by decide)).1⟩

theorem claim6_witness :
    nodeW2.routes_info = [⟨["T"], 0⟩, ⟨["U"], 0⟩] ∧
    (⟨nodeW2.score + 0 +
        (((sortStrings ["A"]).filter
            (fun r => !check_reactant_is_material envC1 r)).map envC1.valueFn).sum -
        envC1.valueFn ((⟨["T"], 0⟩ : RouteInfo).route.getLastD ""),
      (((sortStrings ["A"]).filter
          (fun r => !check_reactant_is_material envC1 r)).map
          (fun r => RouteInfo.mk ((⟨["T"], 0⟩ : RouteInfo).route ++ [r])
            ((⟨["T"], 0⟩ : RouteInfo).depth + 1))).reverse ++ [⟨["U"], 0⟩],
      nodeW2.starting_materials ++
        (sortStrings ["A"]).filter
          (fun r => check_reactant_is_material envC1 r)⟩ : Node) ∈
      (expandNode envC1 2 nodeW2).2 :=
  ⟨rfl,
    claim6_nonterminal_child envC1 2 nodeW2 ⟨["T"], 0⟩ [⟨["U"], 0⟩] ["A"] 0 rfl
      (Nat.zero_le _) (by simp [envC1]) (by rintro ⟨-, h⟩; simp at h)⟩

theorem claim7_witness :
    (searchRound envC1 2 [nodeW]).2.length =
      min envC1.beamSize
        ([nodeW].flatMap (fun item => (expandNode envC1 2 item).2)).length :=
  (claim7_beam_pruning envC1 2 [nodeW]).1

theorem claim8_witness :
    (get_route_result envC1 taskC1 1).1 = taskC1.depth :=
  (claim8_evaluation envC1 taskC1 1).1

theorem claim9_witness :
    (expandNodeOn envC1 nodeW ([(["A"], 0)] ++ [(["B", "C"], 0)]) 2).1 =
      (expandNodeOn envC1 nodeW [(["A"], 0)] 2).1 ++
        (expandNodeOn envC1 nodeW [(["B", "C"], 0)] 2).1 :=
  (claim9_no_mutation envC1 2 nodeW [(["A"], 0)] [(["B", "C"], 0)]).1

theorem claim10_witness :
    beamEnvW.vocabSize ≤ 100 ∧
    (unpackBeamIx (packIx 7 2) = 7 ∧ unpackSymbolIx (packIx 7 2) = 2) :=
  ⟨by decide, (claim10_packing beamEnvW "P").1.mpr (by decide) 7 2 (by decide)⟩
